import Mathlib

set_option maxRecDepth 65536

/-!
Verification of the content-extraction subsystem of the clickbait-detector
application (source: `app.py`).  The Python functions are shallowly embedded
as executable Lean definitions over `List Char` / `String`, an explicit DOM
tree type standing for the BeautifulSoup parse tree, byte lists for HTTP
response bodies, and an oracle-style model of the external collaborators
(HTTP fetcher, HTML parser, codec library).  Sentinel strings are kept
verbatim from the source (Korean): the string rendered in the spec as
"no title found" is the source constant for the missing-title sentinel,
"no body found" is the missing-body sentinel, and "unknown source" is the
missing-source sentinel.
-/

/-! ## Whitespace machinery

Models the Python regular-expression class `\s` (restricted to its ASCII
members, the ones relevant to HTML text) and the `str.strip` method, and
the normalization `re.sub(r'\s+', ' ', s).strip()` used at `app.py` lines
120 and 132. -/

/-- ASCII whitespace characters recognised by the Python `\s` class and by
`str.strip`. -/
def isWs (c : Char) : Bool :=
  c == ' ' || c == '\t' || c == '\n' || c == '\r' || c == '\x0b' || c == '\x0c'

mutual

/-- Model of `re.sub(r'\s+', ' ', s)`: every maximal run of whitespace is
replaced by a single space. -/
def collapseWs : List Char → List Char
  | [] => []
  | c :: cs => if isWs c then ' ' :: skipWs cs else c :: collapseWs cs

/-- Continuation of `collapseWs` inside a whitespace run: drop the remaining
whitespace of the run, then resume. -/
def skipWs : List Char → List Char
  | [] => []
  | c :: cs => if isWs c then skipWs cs else c :: collapseWs cs

end

/-- Model of Python `str.lstrip()` on character lists. -/
def lstripWs (l : List Char) : List Char := l.dropWhile fun c => isWs c

/-- Model of Python `str.rstrip()` on character lists, written structurally. -/
def rstripWs : List Char → List Char
  | [] => []
  | c :: cs =>
    match rstripWs cs with
    | [] => if isWs c then [] else [c]
    | r => c :: r

/-- Model of Python `str.strip()` on character lists. -/
def pyStripL (l : List Char) : List Char := rstripWs (lstripWs l)

/-- Model of Python `str.strip()` on strings. -/
def pyStripS (s : String) : String := String.mk (pyStripL s.data)

/-- The body-text normalization of `app.py` lines 120 and 132:
`re.sub(r'\s+', ' ', s).strip()`, on character lists. -/
def normalizeL (l : List Char) : List Char := pyStripL (collapseWs l)

/-- The body-text normalization of `app.py` lines 120 and 132 on strings. -/
def normalizeWs (s : String) : String := String.mk (normalizeL s.data)

/-- Every whitespace character of the list is a plain space. -/
def allSp (l : List Char) : Bool := l.all fun c => !isWs c || c == ' '

/-- No two adjacent characters of the list are both whitespace
(no whitespace run of length two or more). -/
def noRun : List Char → Bool
  | c :: d :: cs => !(isWs c && isWs d) && noRun (d :: cs)
  | _ => true

/-- The head, when present, is not whitespace. -/
def headNW : List Char → Bool
  | [] => true
  | c :: _ => !isWs c

/-- The last character, when present, is not whitespace. -/
def lastNW : List Char → Bool
  | [] => true
  | [c] => !isWs c
  | _ :: cs => lastNW cs

/-! ## DOM model

A shallow embedding of the BeautifulSoup parse tree consumed by
`extract_info_from_url` (`app.py` lines 66-137).  An element node carries its
tag name, its (multi-valued) `class` attribute, its `id` attribute, and its
remaining attributes. -/

inductive Node where
  | text (s : String)
  | elem (tag : String) (classes : List String) (idAttr : Option String)
         (attrs : List (String × String)) (children : List Node)

/-- The parsed document: the top-level nodes of the soup. -/
abbrev Doc := List Node

mutual

/-- The character lists of all descendant text nodes, in document order. -/
def textPieces : Node → List (List Char)
  | .text s => [s.data]
  | .elem _ _ _ _ cs => textPiecesL cs

def textPiecesL : List Node → List (List Char)
  | [] => []
  | n :: ns => textPieces n ++ textPiecesL ns

end

/-- Join character lists with a separator (model of `str.join`). -/
def joinSep (sep : List Char) : List (List Char) → List Char
  | [] => []
  | [x] => x
  | x :: xs => x ++ sep ++ joinSep sep xs

/-- Model of `get_text(strip=True)` piece preparation: each descendant text
node stripped, empty pieces dropped. -/
def getTextPieces (n : Node) : List (List Char) :=
  ((textPieces n).map pyStripL).filter fun p => !p.isEmpty

/-- Model of `get_text(separator=' ', strip=True)`. -/
def getTextSp (n : Node) : List Char := joinSep [' '] (getTextPieces n)

/-- Model of `get_text(strip=True)` with the default empty separator. -/
def getTextCat (n : Node) : List Char := joinSep [] (getTextPieces n)

/-- The decompose condition fragment of `app.py` line 116:
`s.get_text(strip=True).strip() == ''`. -/
def blankText (n : Node) : Bool := (pyStripL (getTextCat n)).isEmpty

/-- Tags passed to `find_all` at `app.py` line 115. -/
def removeTags : List String :=
  ["script", "style", "ins", "iframe", "noscript", "img", "figure", "ul",
   "ol", "blockquote", "a", "strong", "em"]

/-- Tags removed unconditionally at `app.py` line 116. -/
def uncondTags : List String := ["script", "style", "ins", "iframe", "noscript"]

mutual

/-- The decompose loop of `app.py` lines 115-117 applied below an element:
every descendant element whose tag is in `removeTags` is removed when it is
a script-like tag or its own subtree text is blank.  `find_all` returns the
elements in document order, so each condition is evaluated on the subtree as
it stood before any of its own descendants were removed. -/
def cleanList : List Node → List Node
  | [] => []
  | n :: ns => cleanKeep n ++ cleanList ns

/-- One node of the decompose pass: dropped entirely when removable, kept
with its children cleaned otherwise. -/
def cleanKeep : Node → List Node
  | .text s => [.text s]
  | .elem t c i a cs =>
    if removeTags.contains t && (uncondTags.contains t || blankText (.elem t c i a cs)) then []
    else [.elem t c i a (cleanList cs)]

end

/-- Character membership in a character list. -/
def hasChar (l : List Char) (c : Char) : Bool := l.any fun d => d == c

/-- Model of Python `str.split(sep)` for a single-character separator. -/
def splitChar (sep : Char) : List Char → List (List Char)
  | [] => [[]]
  | c :: cs =>
    match splitChar sep cs with
    | [] => [[]]
    | r :: rs => if c == sep then [] :: r :: rs else (c :: r) :: rs

/-- Attribute lookup in an attribute list (model of `tag.get`). -/
def attrLookup : List (String × String) → String → Option String
  | [], _ => none
  | (k, v) :: rest, n => if k == n then some v else attrLookup rest n

/-- Parse the one attribute selector of the catalog,
`div[itemprop="articleBody"]`, into tag, attribute name and value. -/
def parseAttrSel (l : List Char) : List Char × List Char × List Char :=
  let tg := l.takeWhile fun c => c != '['
  let rest := (l.dropWhile fun c => c != '[').drop 1
  let nm := rest.takeWhile fun c => c != '='
  let rest2 := (rest.dropWhile fun c => c != '=').drop 2
  let vl := rest2.takeWhile fun c => c != '"'
  (tg, nm, vl)

/-- The selector dispatch of `app.py` lines 100-111: attribute selectors go
through `select_one`, class selectors through `find(tag, class_=...)`, id
selectors through `find(tag, id=...)`, bare names through `find(tag)`.  All
of them locate the first matching element in document order. -/
def selMatch (sel : String) (n : Node) : Bool :=
  match n with
  | .text _ => false
  | .elem t cls idA attrs _ =>
    let l := sel.data
    if hasChar l '[' && hasChar l ']' then
      let (tg, nm, vl) := parseAttrSel l
      t.data == tg && attrLookup attrs (String.mk nm) == some (String.mk vl)
    else if hasChar l '.' then
      match splitChar '.' l with
      | [tg, cn] => t.data == tg && cls.contains (String.mk cn)
      | _ => false
    else if hasChar l '#' then
      match splitChar '#' l with
      | [tg, idn] => t.data == tg && idA == some (String.mk idn)
      | _ => false
    else t == sel

mutual

/-- Locate the first element (in document order) satisfying `p`, decompose
the removable nodes below it, and return the mutated node together with the
cleaned element (the tree is mutated in place in the source). -/
def findCleanN (p : Node → Bool) : Node → Option (Node × Node)
  | .text _ => none
  | .elem t c i a cs =>
    if p (.elem t c i a cs) then
      some (.elem t c i a (cleanList cs), .elem t c i a (cleanList cs))
    else
      match findCleanL p cs with
      | some (cs2, e) => some (.elem t c i a cs2, e)
      | none => none

def findCleanL (p : Node → Bool) : List Node → Option (List Node × Node)
  | [] => none
  | n :: ns =>
    match findCleanN p n with
    | some (n2, e) => some (n2 :: ns, e)
    | none =>
      match findCleanL p ns with
      | some (ns2, e) => some (n :: ns2, e)
      | none => none

end

mutual

/-- First element in document order satisfying `p` (model of `soup.find`). -/
def findN (p : Node → Bool) : Node → Option Node
  | .text _ => none
  | .elem t c i a cs =>
    if p (.elem t c i a cs) then some (.elem t c i a cs) else findL p cs

def findL (p : Node → Bool) : List Node → Option Node
  | [] => none
  | n :: ns =>
    match findN p n with
    | some e => some e
    | none => findL p ns

end

/-- Ancestor classes that exclude a paragraph at `app.py` line 129. -/
def exclClasses : List String := ["reply", "footer", "copyright", "ad_unit"]

mutual

/-- All `p` elements in document order (model of `find_all('p')`), each
paired with whether some strict ancestor carries one of `exclClasses`
(model of `find_parent(class_=['reply', 'footer', 'copyright', 'ad_unit'])`). -/
def pCollN (excl : Bool) : Node → List (Node × Bool)
  | .text _ => []
  | .elem t cls i a cs =>
    (if t == "p" then [(Node.elem t cls i a cs, excl)] else []) ++
      pCollL (excl || cls.any fun c => exclClasses.contains c) cs

def pCollL (excl : Bool) : List Node → List (Node × Bool)
  | [] => []
  | n :: ns => pCollN excl n ++ pCollL excl ns

end

/-- The ordered selector catalog of `app.py` lines 75-98. -/
def possible_body_selectors : List String :=
  ["div.article_view", "div.article_head_body", "div#article_content",
   "div.article_body_content", "div#harmonyContainer",
   "div.article-view-content-wrapper", "div.news_content",
   "div.article_content", "div.body_content", "div.entry-content",
   "section.article-body", "div.view_page_text",
   "div[itemprop=\"articleBody\"]", "article", "div#articleBody",
   "div.contents_area", "div.news_view", "div.view_txt", "div.txt_area",
   "div.article_text", "div.news_content_area", "div.cont_art"]

/-- The selector loop of `app.py` lines 100-123: try each selector in order;
on a match, decompose below the element (mutating the document), extract and
normalize its text into `body`, and stop as soon as the text is longer than
150 characters.  Returns the mutated document, the final `body`, and the
index of the selector that broke the loop, if any. -/
def scanSel (doc : Doc) (body : String) (idx : Nat) :
    List String → Doc × String × Option Nat
  | [] => (doc, body, none)
  | sel :: rest =>
    match findCleanL (selMatch sel) doc with
    | none => scanSel doc body (idx + 1) rest
    | some (doc2, e2) =>
      let b := String.mk (normalizeL (getTextSp e2))
      if 150 < b.length then (doc2, b, some idx)
      else scanSel doc2 b (idx + 1) rest

/-- The same scan without the break: records, for every selector, the
normalized text it would extract (`none` when it does not match), threading
the document mutations throughout. -/
def scanAll (doc : Doc) : List String → Doc × List (Option String)
  | [] => (doc, [])
  | sel :: rest =>
    match findCleanL (selMatch sel) doc with
    | none =>
      let r := scanAll doc rest
      (r.1, none :: r.2)
    | some (doc2, e2) =>
      let b := String.mk (normalizeL (getTextSp e2))
      let r := scanAll doc2 rest
      (r.1, some b :: r.2)

/-- Index of the first recorded extraction strictly longer than 150
characters. -/
def firstLongIdx (i : Nat) : List (Option String) → Option Nat
  | [] => none
  | none :: rest => firstLongIdx (i + 1) rest
  | some b :: rest => if 150 < b.length then some i else firstLongIdx (i + 1) rest

/-- Index of the first recorded extraction of at least 150 characters (the
reading of the threshold used by the claim under scrutiny). -/
def firstGEIdx (i : Nat) : List (Option String) → Option Nat
  | [] => none
  | none :: rest => firstGEIdx (i + 1) rest
  | some b :: rest => if 150 ≤ b.length then some i else firstGEIdx (i + 1) rest

/-- The paragraphs accepted by the fallback filter of `app.py` line 129. -/
def validParagraphs (doc : Doc) : List Node :=
  ((pCollL false doc).filter fun pe => !pe.2 && 20 < (getTextCat pe.1).length).map
    fun pe => pe.1

/-- The paragraph-fallback strategy of `app.py` lines 127-134: join the text
of the valid paragraphs, normalize, and accept only a result longer than 100
characters. -/
def fallbackBody (doc : Doc) : Option String :=
  let valid := validParagraphs doc
  if valid.isEmpty then none
  else
    let joined := joinSep [' '] (valid.map getTextSp)
    let tb := String.mk (normalizeL joined)
    if 100 < tb.length then some tb else none

/-- Sentinel for a missing title (source constant, rendered in the spec as
"no title found"). -/
def noTitleSentinel : String := "제목 없음"

/-- Sentinel for a missing body (source constant, rendered in the spec as
"no body found"). -/
def noBodySentinel : String := "본문 없음"

/-- Sentinel for an unidentified source (source constant, rendered in the
spec as "unknown source"). -/
def noSourceSentinel : String := "출처 불명"

/-- Result of the body-extraction phase, with the observables the claims
talk about: the final body string, the index of the selector that broke the
scan (if any), whether the paragraph-fallback branch was entered, and
whether its result was accepted as the body. -/
structure BodyResult where
  body : String
  brokeAt : Option Nat
  fallbackRan : Bool
  usedFallback : Bool
  docAfter : Doc

/-- The complete body extraction of `app.py` lines 74-137: selector scan,
then the paragraph fallback when the scan left less than 150 characters,
then the sentinel when everything stayed empty. -/
def extract_body (doc : Doc) : BodyResult :=
  let r := scanSel doc "" 0 possible_body_selectors
  let doc1 := r.1
  let b1 := r.2.1
  let brk := r.2.2
  if b1 == "" || b1.length < 150 then
    match fallbackBody doc1 with
    | some tb => ⟨tb, brk, true, true, doc1⟩
    | none => ⟨if b1 == "" then noBodySentinel else b1, brk, true, false, doc1⟩
  else ⟨b1, brk, false, false, doc1⟩

/-- Model of `soup.find("meta", property="og:title")`. -/
def findMetaOg (doc : Doc) : Option Node :=
  findL (fun n => match n with
    | .elem t _ _ attrs _ => t == "meta" && attrLookup attrs "property" == some "og:title"
    | _ => false) doc

/-- Model of `soup.title`. -/
def findTitleTag (doc : Doc) : Option Node :=
  findL (fun n => match n with
    | .elem t _ _ _ _ => t == "title"
    | _ => false) doc

/-- Model of the BeautifulSoup `.string` property: the single text child of
the tag (descending through a single element child), `none` otherwise. -/
def nodeString : Node → Option String
  | .elem _ _ _ _ [Node.text s] => some s
  | .elem _ _ _ _ [Node.elem t c i a cs] => nodeString (.elem t c i a cs)
  | _ => none

/-- The `content` attribute of the og:title meta tag, when the tag exists. -/
def ogContent (doc : Doc) : Option String :=
  match findMetaOg doc with
  | some (.elem _ _ _ attrs _) => attrLookup attrs "content"
  | _ => none

/-- The first assignment to `title` at `app.py` line 70:
`title_tag["content"] if title_tag and title_tag.get("content") else
(soup.title.string if soup.title else "제목 없음")`.  `none` stands for
Python `None` (a title element without a usable `.string`). -/
def titleStep1 (doc : Doc) : Option String :=
  match ogContent doc with
  | some c => if c == "" then
      (match findTitleTag doc with
       | some n => nodeString n
       | none => some noTitleSentinel)
    else some c
  | none =>
    match findTitleTag doc with
    | some n => nodeString n
    | none => some noTitleSentinel

/-- The title extraction of `app.py` lines 69-71, including the final
`title.strip() if title else "제목 없음"`. -/
def extract_title (doc : Doc) : String :=
  match titleStep1 doc with
  | none => noTitleSentinel
  | some t => if t == "" then noTitleSentinel else pyStripS t

/-! ## Source identification

Model of the domain regular expression search of `app.py` lines 139-151:
`re.search(r"https?://(?:www\.)?([a-zA-Z0-9-]+\.(?:co\.kr|com|net|org|kr|io|dev|ai|app|info|biz|tv|news|me|blog|cc|xyz)[^/]*)/?", url)`.
The pattern is matched at the leftmost possible position; at a given
position the match is deterministic: the scheme, then optionally `www.`
(with backtracking to not consuming it), then a maximal run of label
characters, a literal dot, the first suffix alternative that is a prefix of
the remainder, and everything up to the next slash. -/

/-- Characters allowed in `[a-zA-Z0-9-]`. -/
def isLabelChar (c : Char) : Bool := c.isAlpha || c.isDigit || c == '-'

/-- The suffix alternation of the domain pattern, in source order. -/
def domainSuffixes : List (List Char) :=
  ["co.kr", "com", "net", "org", "kr", "io", "dev", "ai", "app", "info",
   "biz", "tv", "news", "me", "blog", "cc", "xyz"].map String.data

/-- Is `pat` a prefix of `l`? -/
def startsWithL : List Char → List Char → Bool
  | [], _ => true
  | _ :: _, [] => false
  | p :: ps, c :: cs => p == c && startsWithL ps cs

/-- First suffix alternative that is a prefix of `l`, in alternation order. -/
def firstSuffix (l : List Char) : Option (List Char) :=
  domainSuffixes.find? fun suf => startsWithL suf l

/-- Match `label.suffix[^/]*` at the current position, returning the
captured group. -/
def matchDomain (cs : List Char) : Option (List Char) :=
  let label := cs.takeWhile isLabelChar
  if label.isEmpty then none
  else
    match cs.drop label.length with
    | '.' :: rest2 =>
      match firstSuffix rest2 with
      | some suf =>
        let tail := (rest2.drop suf.length).takeWhile fun c => c != '/'
        some (label ++ '.' :: suf ++ tail)
      | none => none
    | _ => none

/-- Match the part after the scheme: try with `www.` consumed first, then
without (regex backtracking on the optional group). -/
def matchAfterScheme (cs : List Char) : Option (List Char) :=
  if startsWithL "www.".data cs then
    match matchDomain (cs.drop 4) with
    | some g => some g
    | none => matchDomain cs
  else matchDomain cs

/-- Match the whole pattern at the current position. -/
def matchAt (cs : List Char) : Option (List Char) :=
  if startsWithL "https://".data cs then matchAfterScheme (cs.drop 8)
  else if startsWithL "http://".data cs then matchAfterScheme (cs.drop 7)
  else none

/-- Leftmost-position search (model of `re.search`). -/
def searchDomain : List Char → Option (List Char)
  | [] => none
  | c :: cs =>
    match matchAt (c :: cs) with
    | some g => some g
    | none => searchDomain cs

/-- Substring containment (model of the Python `in` operator on strings). -/
def hasSubL (pat : List Char) : List Char → Bool
  | [] => pat.isEmpty
  | c :: cs => startsWithL pat (c :: cs) || hasSubL pat cs

/-- Substring containment on strings. -/
def hasSubstr (s pat : String) : Bool := hasSubL pat.data s.data

/-- The source identification of `app.py` lines 139-151: regex search, then
leftmost label for `.co.kr` domains and the second-to-last dot-separated
part otherwise, hyphens removed, stripped, with the sentinel for a failed
match or blank result. -/
def extract_source (url : String) : String :=
  let src :=
    match searchDomain url.data with
    | some g =>
      if hasSubL ".co.kr".data g then
        (splitChar '.' g).getD 0 []
      else
        let parts := splitChar '.' g
        parts.getD (parts.length - 2) []
    | none => noSourceSentinel.data
  let cleaned := pyStripL (src.filter fun c => c != '-')
  if cleaned.isEmpty then noSourceSentinel else String.mk cleaned

/-! ## Encoding resolution

Model of `app.py` lines 48-66.  The HTTP response is a record of the raw
byte list (`response.content`), the declared Content-Type header, the HTTP
status code, and the text of the baseline decode (`response.text`, produced
by the requests library, treated as an oracle input).  The euc-kr codec is
an external library; it is modelled with the structure of the EUC-KR
encoding (ASCII bytes decode to themselves, a lead byte 0xA1-0xFE followed
by a trail byte 0xA1-0xFE decodes to a two-byte character) and an explicit
error mode: strict decoding fails on the first invalid sequence, while
replacement decoding substitutes U+FFFD and continues, as
`bytes.decode('euc-kr', errors='replace')` does. -/

structure Response where
  status : Nat
  content : List Nat
  contentType : String
  text : String

inductive DecodeMode where
  | strict
  | replace
deriving DecidableEq

/-- The replacement character U+FFFD. -/
def repChar : Char := '�'

/-- A representative decoded character for a valid euc-kr double-byte
sequence (the exact code-point table of the codec is external; the model
maps valid pairs injectively into the Hangul-syllable block). -/
def decodePair (b1 b2 : Nat) : Char := Char.ofNat (0xAC00 + (b1 - 0xA1) * 94 + (b2 - 0xA1))

/-- Model of `bytes.decode('euc-kr', errors=mode)`. -/
def eucKrDecode (mode : DecodeMode) : List Nat → Except Unit (List Char)
  | [] => .ok []
  | [b] =>
    if b < 0x80 then .ok [Char.ofNat b]
    else
      match mode with
      | .strict => .error ()
      | .replace => .ok [repChar]
  | b :: b2 :: rest2 =>
    if b < 0x80 then
      (eucKrDecode mode (b2 :: rest2)).map fun cs => Char.ofNat b :: cs
    else if 0xA1 ≤ b ∧ b ≤ 0xFE then
      if 0xA1 ≤ b2 ∧ b2 ≤ 0xFE then
        (eucKrDecode mode rest2).map fun cs => decodePair b b2 :: cs
      else
        match mode with
        | .strict => .error ()
        | .replace => (eucKrDecode mode (b2 :: rest2)).map fun cs => repChar :: cs
    else
      match mode with
      | .strict => .error ()
      | .replace => (eucKrDecode mode (b2 :: rest2)).map fun cs => repChar :: cs

/-- The text produced by the replacement decode (total by
`eucKrDecode_replace_ok` below). -/
def eucKrReplaceText (bs : List Nat) : String :=
  match eucKrDecode .replace bs with
  | .ok cs => String.mk cs
  | .error _ => ""

/-- The override condition of `app.py` line 57:
`'charset=euc-kr' in content_type or 'dt.co.kr' in url`, where
`content_type = response.headers.get('Content-Type', '').lower()`. -/
def overrideCond (resp : Response) (url : String) : Bool :=
  hasSubstr (String.mk (resp.contentType.data.map Char.toLower)) "charset=euc-kr" ||
    hasSubstr url "dt.co.kr"

/-- Which decoding ended up as `text_content`. -/
inductive EncUse where
  | baselineDecl
  | euckrOverride
  | euckrFailedKeep
deriving DecidableEq

/-- The encoding resolution of `app.py` lines 52-64: start from the baseline
`response.text`; when the override condition holds, re-decode the raw bytes
as euc-kr with replacement, keeping the baseline text if that decode were to
raise (the `except UnicodeDecodeError` arm). -/
def resolveEncoding (resp : Response) (url : String) : String × EncUse :=
  if overrideCond resp url then
    match eucKrDecode .replace resp.content with
    | .ok cs => (String.mk cs, .euckrOverride)
    | .error _ => (resp.text, .euckrFailedKeep)
  else (resp.text, .baselineDecl)

/-- Modelled from the spec (section 4.5 wording of the claim under
scrutiny): the host of a URL, the characters between the scheme separator
and the next slash. -/
def hostOf (url : String) : String :=
  let l := url.data
  let rec go : List Char → List Char
    | [] => []
    | c :: cs =>
      if startsWithL "://".data (c :: cs) then (cs.drop 2).takeWhile fun d => d != '/'
      else go cs
  String.mk (go l)

/-- Modelled from the spec: the claim condition that the declared charset
indicates euc-kr or the URL's DOMAIN matches the legacy publisher
`dt.co.kr` (exact host or a subdomain of it). -/
def specLegacyCond (resp : Response) (url : String) : Bool :=
  hasSubstr (String.mk (resp.contentType.data.map Char.toLower)) "charset=euc-kr" ||
    (hostOf url == "dt.co.kr" || (hostOf url).data.reverse.take 9 == ".dt.co.kr".data.reverse)

/-! ## Orchestration

Model of `extract_info_from_url` (`app.py` lines 39-160).  The network fetch
and the HTML parser are external collaborators: the fetch outcome is an
input (`requests.get` either raises a `RequestException` — timeout,
connection failure — or returns a response whose `raise_for_status` raises
on a 4xx/5xx status), and the parser is an oracle function from the decoded
text to a parse tree, whose failure stands for the `except Exception`
catch-all of lines 158-160. -/

inductive NetErr where
  | timeout
  | connection
deriving DecidableEq

inductive FetchOutcome where
  | fail (e : NetErr)
  | ok (resp : Response)

/-- Did the fetch phase fail (exception from `requests.get`, or
`raise_for_status` on a 4xx/5xx status)? -/
def fetchFailed : FetchOutcome → Bool
  | .fail _ => true
  | .ok resp => 400 ≤ resp.status && resp.status < 600

/-- The user-facing condition reported by `extract_info_from_url`:
`st.error` on a `RequestException` (line 156), `st.warning` on the
catch-all (line 159), normal extraction otherwise. -/
inductive Report where
  | networkErr
  | parseWarn
  | okExtract
deriving DecidableEq

/-- Model of `extract_info_from_url` (`app.py` lines 39-160): on fetch
failure return three empty strings reporting a network error; otherwise
resolve the encoding, parse, and extract title, body and source; a parse
failure degrades to the three sentinels with a warning. -/
def extract_info_from_url (url : String) (fetch : FetchOutcome)
    (parse : String → Except Unit Doc) : (String × String × String) × Report :=
  match fetch with
  | .fail _ => (("", "", ""), .networkErr)
  | .ok resp =>
    if 400 ≤ resp.status && resp.status < 600 then (("", "", ""), .networkErr)
    else
      match parse (resolveEncoding resp url).1 with
      | .error _ => ((noTitleSentinel, noBodySentinel, noSourceSentinel), .parseWarn)
      | .ok doc =>
        ((extract_title doc, (extract_body doc).body, extract_source url), .okExtract)

/-! ## Supporting lemmas -/

/-! ## Concrete inputs used by counterexamples and witnesses -/

/-- A document whose og:title content attribute is whitespace-only. -/
def docC1 : Doc :=
  [Node.elem "meta" [] none [("property", "og:title"), ("content", " ")] []]

def urlC1 : String := "https://example.com/a"

def respC1 : Response := ⟨200, [], "text/html", "x"⟩

def parseC1 : String → Except Unit Doc := fun _ => .ok docC1

/-- A document whose only matching selector yields a short residual body and
which has no paragraphs at all. -/
def docC3 : Doc :=
  [Node.elem "div" ["article_view"] none [] [Node.text "short body text"]]

/-- A document with no matching selector and two long paragraphs, driving
the fallback branch to acceptance. -/
def docC3w : Doc :=
  [Node.elem "div" [] none []
    [Node.elem "p" [] none [] [Node.text (String.mk (List.replicate 60 'x'))],
     Node.elem "p" [] none [] [Node.text (String.mk (List.replicate 60 'y'))]]]

/-- A document whose first selector yields exactly 150 characters and whose
later `article` selector overwrites the body with a short text. -/
def docC4 : Doc :=
  [Node.elem "div" ["article_view"] none []
    [Node.text (String.mk (List.replicate 150 'a'))],
   Node.elem "article" [] none [] [Node.text "tiny article body here"]]

/-- A document whose first selector yields strictly more than 150
characters. -/
def docC4w : Doc :=
  [Node.elem "div" ["article_view"] none []
    [Node.text (String.mk (List.replicate 151 'a'))]]

def respC5 : Response := ⟨404, [], "text/html", ""⟩

def respC7 : Response := ⟨200, [0x41], "text/html", "baseline"⟩

def urlC7 : String := "https://evil.com/dt.co.kr/page"

/-! ## Claim theorems -/

/-! ## Theorems -/

theorem skipWs_headNW : ∀ l : List Char, headNW (skipWs l) = true := by
  intro l
  induction l with
  | nil => rfl
  | cons c cs ih =>
    by_cases h : isWs c = true
    · simpa [skipWs, h] using ih
    · simp [skipWs, h, headNW]

theorem collapse_skip_allSp :
    ∀ l : List Char, allSp (collapseWs l) = true ∧ allSp (skipWs l) = true := by
  intro l
  induction l with
  | nil => exact ⟨rfl, rfl⟩
  | cons c cs ih =>
    by_cases h : isWs c = true
    · constructor
      · simpa [collapseWs, h, allSp] using ih.2
      · simpa [skipWs, h] using ih.2
    · constructor
      · simp only [collapseWs, h, if_neg]
        simp [allSp] at ih ⊢
        exact ⟨Or.inl (by simp [h]), ih.1⟩
      · simp only [skipWs, h, if_neg]
        simp [allSp] at ih ⊢
        exact ⟨Or.inl (by simp [h]), ih.1⟩

theorem noRun_cons_of (c : Char) (r : List Char)
    (hr : noRun r = true) (hh : isWs c = true → headNW r = true) :
    noRun (c :: r) = true := by
  cases r with
  | nil => rfl
  | cons d ds =>
    by_cases h : isWs c = true
    · have := hh h
      simp [headNW] at this
      simp [noRun, hr, this]
    · simp [noRun, hr, h]

theorem collapse_skip_noRun :
    ∀ l : List Char, noRun (collapseWs l) = true ∧ noRun (skipWs l) = true := by
  intro l
  induction l with
  | nil => exact ⟨rfl, rfl⟩
  | cons c cs ih =>
    by_cases h : isWs c = true
    · refine ⟨?_, by simpa [skipWs, h] using ih.2⟩
      simp only [collapseWs, h, if_pos]
      exact noRun_cons_of _ _ ih.2 fun _ => skipWs_headNW cs
    · refine ⟨?_, ?_⟩
      · simp only [collapseWs, h, if_neg]
        exact noRun_cons_of _ _ ih.1 fun hc => absurd hc (by simp [h])
      · simp only [skipWs, h, if_neg]
        exact noRun_cons_of _ _ ih.1 fun hc => absurd hc (by simp [h])

theorem noRun_tail (c : Char) (cs : List Char) (h : noRun (c :: cs) = true) :
    noRun cs = true := by
  cases cs with
  | nil => rfl
  | cons d ds =>
    simp [noRun] at h
    simp [noRun, h.2]

theorem allSp_tail (c : Char) (cs : List Char) (h : allSp (c :: cs) = true) :
    allSp cs = true := by
  simp [allSp] at h ⊢
  exact h.2

theorem lastNW_tail (c : Char) (cs : List Char) (hne : cs ≠ [])
    (h : lastNW (c :: cs) = true) : lastNW cs = true := by
  cases cs with
  | nil => exact absurd rfl hne
  | cons d ds => simpa [lastNW] using h

theorem noRun_dropWhile (p : Char → Bool) :
    ∀ l : List Char, noRun l = true → noRun (l.dropWhile p) = true := by
  intro l
  induction l with
  | nil => intro _; rfl
  | cons c cs ih =>
    intro h
    by_cases hp : p c = true
    · rw [List.dropWhile_cons_of_pos hp]
      exact ih (noRun_tail c cs h)
    · rw [List.dropWhile_cons_of_neg (by simp [hp])]
      exact h

theorem allSp_dropWhile (p : Char → Bool) :
    ∀ l : List Char, allSp l = true → allSp (l.dropWhile p) = true := by
  intro l
  induction l with
  | nil => intro _; rfl
  | cons c cs ih =>
    intro h
    by_cases hp : p c = true
    · rw [List.dropWhile_cons_of_pos hp]
      exact ih (allSp_tail c cs h)
    · rw [List.dropWhile_cons_of_neg (by simp [hp])]
      exact h

theorem lastNW_dropWhile (p : Char → Bool) :
    ∀ l : List Char, lastNW l = true → lastNW (l.dropWhile p) = true := by
  intro l
  induction l with
  | nil => intro _; rfl
  | cons c cs ih =>
    intro h
    by_cases hp : p c = true
    · rw [List.dropWhile_cons_of_pos hp]
      cases cs with
      | nil => rfl
      | cons d ds => exact ih (lastNW_tail c _ (by simp) h)
    · rw [List.dropWhile_cons_of_neg (by simp [hp])]
      exact h

theorem headNW_lstrip (l : List Char) : headNW (lstripWs l) = true := by
  unfold lstripWs
  have := List.head?_dropWhile_not (fun c => isWs c) l
  cases hh : (l.dropWhile fun c => isWs c).head? with
  | none =>
    have : l.dropWhile (fun c => isWs c) = [] := by
      cases hd : l.dropWhile fun c => isWs c with
      | nil => rfl
      | cons x xs => rw [hd] at hh; simp at hh
    simp [this, headNW]
  | some x =>
    rw [hh] at this
    cases hd : l.dropWhile fun c => isWs c with
    | nil => simp [hd] at hh
    | cons y ys =>
      rw [hd] at hh
      simp at hh
      subst hh
      simpa [headNW] using this

theorem rstrip_head? : ∀ l : List Char,
    rstripWs l = [] ∨ (rstripWs l).head? = l.head? := by
  intro l
  cases l with
  | nil => exact Or.inl rfl
  | cons c cs =>
    cases hr : rstripWs cs with
    | nil =>
      by_cases h : isWs c = true
      · exact Or.inl (by simp [rstripWs, hr, h])
      · refine Or.inr ?_
        simp [rstripWs, hr, h]
    | cons d ds =>
      refine Or.inr ?_
      simp [rstripWs, hr]

theorem noRun_rstrip : ∀ l : List Char, noRun l = true → noRun (rstripWs l) = true := by
  intro l
  induction l with
  | nil => intro _; rfl
  | cons c cs ih =>
    intro h
    have hcs := ih (noRun_tail c cs h)
    cases hr : rstripWs cs with
    | nil =>
      by_cases hw : isWs c = true
      · simp [rstripWs, hr, hw, noRun]
      · simp [rstripWs, hr, hw, noRun]
    | cons d ds =>
      have hne : cs ≠ [] := by
        intro hc; rw [hc] at hr; simp [rstripWs] at hr
      simp only [rstripWs, hr]
      rw [hr] at hcs
      refine noRun_cons_of _ _ hcs ?_
      intro hwc
      cases cs with
      | nil => exact absurd rfl hne
      | cons e es =>
        rcases rstrip_head? (e :: es) with h1 | h1
        · rw [h1] at hr; simp at hr
        · rw [hr] at h1
          simp at h1
          subst h1
          simp [noRun] at h
          have hd : isWs d = false := by
            rcases h.1 with h2 | h2
            · exact absurd hwc (by simp [h2])
            · exact h2
          simp [headNW, hd]

theorem allSp_rstrip : ∀ l : List Char, allSp l = true → allSp (rstripWs l) = true := by
  intro l
  induction l with
  | nil => intro _; rfl
  | cons c cs ih =>
    intro h
    have hcs := ih (allSp_tail c cs h)
    have hc : (!isWs c || c == ' ') = true := by
      simp [allSp] at h
      rcases h.1 with h1 | h1 <;> simp [h1]
    cases hr : rstripWs cs with
    | nil =>
      by_cases hw : isWs c = true
      · simp [rstripWs, hr, hw, allSp]
      · simp [rstripWs, hr, hw, allSp, hc]
    | cons d ds =>
      rw [hr] at hcs
      simp only [rstripWs, hr]
      simp only [allSp, List.all_cons] at hcs ⊢
      rw [Bool.and_eq_true]
      exact ⟨hc, hcs⟩

theorem lastNW_rstrip : ∀ l : List Char, lastNW (rstripWs l) = true := by
  intro l
  induction l with
  | nil => rfl
  | cons c cs ih =>
    cases hr : rstripWs cs with
    | nil =>
      by_cases hw : isWs c = true
      · simp [rstripWs, hr, hw, lastNW]
      · simp [rstripWs, hr, hw, lastNW]
    | cons d ds =>
      rw [hr] at ih
      simp only [rstripWs, hr]
      simpa [lastNW] using ih

theorem headNW_rstrip (l : List Char) (h : headNW l = true) :
    headNW (rstripWs l) = true := by
  rcases rstrip_head? l with h1 | h1
  · simp [h1, headNW]
  · cases l with
    | nil => simp [rstripWs, headNW]
    | cons c cs =>
      cases hr : rstripWs (c :: cs) with
      | nil => simp [headNW]
      | cons d ds =>
        rw [hr] at h1
        simp at h1
        subst h1
        simpa [headNW] using h

theorem collapse_fix : ∀ n : Nat, ∀ l : List Char, l.length ≤ n →
    allSp l = true → noRun l = true → lastNW l = true → collapseWs l = l := by
  intro n
  induction n with
  | zero =>
    intro l hl _ _ _
    have : l = [] := by
      cases l with
      | nil => rfl
      | cons c cs => simp at hl
    simp [this, collapseWs]
  | succ n ih =>
    intro l hl hsp hrun hlast
    cases l with
    | nil => rfl
    | cons c cs =>
      by_cases hw : isWs c = true
      · have hc : c = ' ' := by
          simp [allSp] at hsp
          rcases hsp.1 with h1 | h1
          · exact absurd hw (by simp [h1])
          · exact h1
        cases cs with
        | nil => simp [lastNW, hw] at hlast
        | cons d ds =>
          have hd : isWs d = false := by
            simp [noRun] at hrun
            simpa [hw] using hrun.1
          have hds : collapseWs ds = ds := by
            apply ih ds
            · simp at hl; omega
            · exact allSp_tail d ds (allSp_tail c _ hsp)
            · exact noRun_tail d ds (noRun_tail c _ hrun)
            · cases ds with
              | nil => rfl
              | cons e es => exact lastNW_tail d _ (by simp) (lastNW_tail c _ (by simp) hlast)
          simp [collapseWs, hw, skipWs, hd, hds, hc]
      · have hcs : collapseWs cs = cs := by
          apply ih cs
          · simp at hl; omega
          · exact allSp_tail c cs hsp
          · exact noRun_tail c cs hrun
          · cases cs with
            | nil => rfl
            | cons d ds => exact lastNW_tail c _ (by simp) hlast
        simp [collapseWs, hw, hcs]

theorem lstrip_fix (l : List Char) (h : headNW l = true) : lstripWs l = l := by
  cases l with
  | nil => rfl
  | cons c cs =>
    simp [headNW] at h
    unfold lstripWs
    rw [List.dropWhile_cons_of_neg (by simp [h])]

theorem rstrip_fix : ∀ l : List Char, lastNW l = true → rstripWs l = l := by
  intro l
  induction l with
  | nil => intro _; rfl
  | cons c cs ih =>
    intro h
    cases cs with
    | nil =>
      simp [lastNW] at h
      simp [rstripWs, h]
    | cons d ds =>
      have hcs : rstripWs (d :: ds) = d :: ds := ih (lastNW_tail c _ (by simp) h)
      have hstep : rstripWs (c :: d :: ds) =
          match rstripWs (d :: ds) with
          | [] => if isWs c = true then [] else [c]
          | r => c :: r := rfl
      rw [hstep, hcs]

theorem noRun_normalizeL (l : List Char) : noRun (normalizeL l) = true := by
  unfold normalizeL pyStripL lstripWs
  exact noRun_rstrip _ (noRun_dropWhile _ _ (collapse_skip_noRun l).1)

theorem normalizeL_fix (l : List Char) : normalizeL (normalizeL l) = normalizeL l := by
  have hsp : allSp (normalizeL l) = true := by
    unfold normalizeL pyStripL lstripWs
    exact allSp_rstrip _ (allSp_dropWhile _ _ (collapse_skip_allSp l).1)
  have hrun : noRun (normalizeL l) = true := noRun_normalizeL l
  have hhead : headNW (normalizeL l) = true := by
    unfold normalizeL pyStripL
    exact headNW_rstrip _ (headNW_lstrip _)
  have hlast : lastNW (normalizeL l) = true := by
    unfold normalizeL pyStripL
    exact lastNW_rstrip _
  calc normalizeL (normalizeL l)
      = pyStripL (collapseWs (normalizeL l)) := rfl
    _ = pyStripL (normalizeL l) := by
        rw [collapse_fix (normalizeL l).length (normalizeL l) le_rfl hsp hrun hlast]
    _ = rstripWs (normalizeL l) := by
        unfold pyStripL
        rw [lstrip_fix _ hhead]
    _ = normalizeL l := rstrip_fix _ hlast

/-- The replacement decode is total: it succeeds on every byte list. -/
theorem eucKrDecode_replace_ok (bs : List Nat) :
    ∃ cs, eucKrDecode .replace bs = .ok cs := by
  have H : ∀ n, ∀ bs : List Nat, bs.length ≤ n →
      ∃ cs, eucKrDecode .replace bs = .ok cs := by
    intro n
    induction n with
    | zero =>
      intro bs h
      cases bs with
      | nil => exact ⟨[], rfl⟩
      | cons b rest => simp at h
    | succ n ih =>
      intro bs h
      cases bs with
      | nil => exact ⟨[], rfl⟩
      | cons b rest =>
        cases rest with
        | nil =>
          by_cases hb : b < 0x80
          · exact ⟨[Char.ofNat b], by simp [eucKrDecode, hb]⟩
          · exact ⟨[repChar], by simp [eucKrDecode, hb]⟩
        | cons b2 rest2 =>
          have h1 : (b2 :: rest2).length ≤ n := by simp at h ⊢; omega
          have h2 : rest2.length ≤ n := by simp at h; omega
          obtain ⟨cs1, hc1⟩ := ih (b2 :: rest2) h1
          obtain ⟨cs2, hc2⟩ := ih rest2 h2
          by_cases hb : b < 0x80
          · exact ⟨Char.ofNat b :: cs1, by simp [eucKrDecode, hb, hc1, Except.map]⟩
          · by_cases hl : 0xA1 ≤ b ∧ b ≤ 0xFE
            · by_cases ht : 0xA1 ≤ b2 ∧ b2 ≤ 0xFE
              · exact ⟨decodePair b b2 :: cs2,
                  by simp [eucKrDecode, hb, hl, ht, hc2, Except.map]⟩
              · exact ⟨repChar :: cs1,
                  by simp [eucKrDecode, hb, hl, ht, hc1, Except.map]⟩
            · exact ⟨repChar :: cs1, by simp [eucKrDecode, hb, hl, hc1, Except.map]⟩
  exact H bs.length bs le_rfl

/-- Length of a string built from a character list. -/
theorem strLength_mk (l : List Char) : (String.mk l).length = l.length := rfl

/-- Data of a string built from a character list. -/
theorem strData_mk (l : List Char) : (String.mk l).data = l := rfl

/-- Unfolding equation of `scanSel` on a selector that does not match. -/
theorem scanSel_cons_none (doc : Doc) (body : String) (idx : Nat)
    (sel : String) (rest : List String)
    (hf : findCleanL (selMatch sel) doc = none) :
    scanSel doc body idx (sel :: rest) = scanSel doc body (idx + 1) rest := by
  simp [scanSel, hf]

/-- Unfolding equation of `scanSel` on a matching selector. -/
theorem scanSel_cons_some (doc : Doc) (body : String) (idx : Nat)
    (sel : String) (rest : List String) (doc2 : Doc) (e2 : Node)
    (hf : findCleanL (selMatch sel) doc = some (doc2, e2)) :
    scanSel doc body idx (sel :: rest) =
      (if 150 < (String.mk (normalizeL (getTextSp e2))).length
       then (doc2, String.mk (normalizeL (getTextSp e2)), some idx)
       else scanSel doc2 (String.mk (normalizeL (getTextSp e2))) (idx + 1) rest) := by
  simp [scanSel, hf]

/-- The break index computed by the breaking scan is exactly the first index
at which the recording scan notes a text strictly longer than 150
characters. -/
theorem scanSel_brokeAt_eq_firstLong :
    ∀ (sels : List String) (doc : Doc) (body : String) (idx : Nat),
      (scanSel doc body idx sels).2.2 = firstLongIdx idx (scanAll doc sels).2 := by
  intro sels
  induction sels with
  | nil => intro doc body idx; rfl
  | cons sel rest ih =>
    intro doc body idx
    cases hf : findCleanL (selMatch sel) doc with
    | none =>
      rw [scanSel_cons_none doc body idx sel rest hf]
      simp only [scanAll, hf]
      simpa [firstLongIdx] using ih doc body (idx + 1)
    | some pr =>
      obtain ⟨doc2, e2⟩ := pr
      rw [scanSel_cons_some doc body idx sel rest doc2 e2 hf]
      simp only [scanAll, hf]
      by_cases hb : 150 < (normalizeL (getTextSp e2)).length
      · simp [hb, firstLongIdx, strLength_mk]
      · simp [hb, firstLongIdx, strLength_mk]
        exact ih doc2 (String.mk (normalizeL (getTextSp e2))) (idx + 1)

/-- When the scan broke, the body it returns is strictly longer than 150
characters. -/
theorem scanSel_broke_long :
    ∀ (sels : List String) (doc : Doc) (body : String) (idx : Nat),
      (scanSel doc body idx sels).2.2.isSome = true →
      150 < (scanSel doc body idx sels).2.1.length := by
  intro sels
  induction sels with
  | nil => intro doc body idx h; simp [scanSel] at h
  | cons sel rest ih =>
    intro doc body idx h
    cases hf : findCleanL (selMatch sel) doc with
    | none =>
      rw [scanSel_cons_none doc body idx sel rest hf] at h ⊢
      exact ih doc body (idx + 1) h
    | some pr =>
      obtain ⟨doc2, e2⟩ := pr
      rw [scanSel_cons_some doc body idx sel rest doc2 e2 hf] at h ⊢
      by_cases hb : 150 < (normalizeL (getTextSp e2)).length
      · simp [hb, strLength_mk]
      · simp only [strLength_mk, hb, if_false, if_neg hb] at h ⊢
        exact ih doc2 (String.mk (normalizeL (getTextSp e2))) (idx + 1) h

/-- The body returned by the scan keeps the no-whitespace-run invariant of
its initial accumulator, every selector extraction being normalized. -/
theorem scanSel_noRun :
    ∀ (sels : List String) (doc : Doc) (body : String) (idx : Nat),
      noRun body.data = true →
      noRun ((scanSel doc body idx sels).2.1).data = true := by
  intro sels
  induction sels with
  | nil => intro doc body idx h; simpa [scanSel] using h
  | cons sel rest ih =>
    intro doc body idx h
    cases hf : findCleanL (selMatch sel) doc with
    | none =>
      rw [scanSel_cons_none doc body idx sel rest hf]
      exact ih doc body (idx + 1) h
    | some pr =>
      obtain ⟨doc2, e2⟩ := pr
      rw [scanSel_cons_some doc body idx sel rest doc2 e2 hf]
      by_cases hb : 150 < (normalizeL (getTextSp e2)).length
      · simpa [hb, strLength_mk, strData_mk] using noRun_normalizeL (getTextSp e2)
      · simp only [strLength_mk, hb, if_false, if_neg hb]
        exact ih doc2 _ (idx + 1) (by simpa [strData_mk] using noRun_normalizeL (getTextSp e2))

/-- A body accepted by the paragraph fallback is strictly longer than 100
characters. -/
theorem fallbackBody_long (doc : Doc) (tb : String)
    (h : fallbackBody doc = some tb) : 100 < tb.length := by
  unfold fallbackBody at h
  by_cases hv : (validParagraphs doc).isEmpty = true
  · simp [hv] at h
  · simp only [hv, Bool.false_eq_true, if_false] at h
    by_cases hl : 100 < (String.mk (normalizeL (joinSep [' ']
        ((validParagraphs doc).map getTextSp)))).length
    · rw [if_pos hl] at h
      cases h
      exact hl
    · rw [if_neg hl] at h
      cases h

/-- A body accepted by the paragraph fallback is normalized. -/
theorem fallbackBody_noRun (doc : Doc) (tb : String)
    (h : fallbackBody doc = some tb) : noRun tb.data = true := by
  unfold fallbackBody at h
  by_cases hv : (validParagraphs doc).isEmpty = true
  · simp [hv] at h
  · simp only [hv, Bool.false_eq_true, if_false] at h
    by_cases hl : 100 < (String.mk (normalizeL (joinSep [' ']
        ((validParagraphs doc).map getTextSp)))).length
    · rw [if_pos hl] at h
      cases h
      exact noRun_normalizeL _
    · rw [if_neg hl] at h
      cases h

/-- The break index recorded by `extract_body` is the scan's break index. -/
theorem extract_body_brokeAt (doc : Doc) :
    (extract_body doc).brokeAt = (scanSel doc "" 0 possible_body_selectors).2.2 := by
  unfold extract_body
  by_cases hc : ((scanSel doc "" 0 possible_body_selectors).2.1 == "" ||
      (scanSel doc "" 0 possible_body_selectors).2.1.length < 150) = true
  · rw [if_pos hc]
    cases hf : fallbackBody (scanSel doc "" 0 possible_body_selectors).1 <;> rfl
  · rw [if_neg hc]

/-- A nonempty character list gives a nonempty string. -/
theorem strMk_ne_empty (l : List Char) (h : l ≠ []) : String.mk l ≠ "" := by
  intro he
  apply h
  have hd : (String.mk l).data = ("" : String).data := by rw [he]
  simpa using hd

/-- When the scan broke out of the selector loop, the paragraph-fallback
branch is not entered. -/
theorem extract_body_broke_noFallback (doc : Doc)
    (h : (extract_body doc).brokeAt.isSome = true) :
    (extract_body doc).fallbackRan = false := by
  rw [extract_body_brokeAt] at h
  have h150 := scanSel_broke_long possible_body_selectors doc "" 0 h
  unfold extract_body
  have hcond : ((scanSel doc "" 0 possible_body_selectors).2.1 == "" ||
      (scanSel doc "" 0 possible_body_selectors).2.1.length < 150) = false := by
    have hne : ((scanSel doc "" 0 possible_body_selectors).2.1 == "") = false := by
      rw [beq_eq_false_iff_ne]
      intro he
      rw [he] at h150
      simp at h150
    simp [hne]
    omega
  rw [if_neg (by simp [hcond])]

/-- The final body is never the empty string. -/
theorem extract_body_ne_empty (doc : Doc) : (extract_body doc).body ≠ "" := by
  unfold extract_body
  by_cases hc : ((scanSel doc "" 0 possible_body_selectors).2.1 == "" ||
      (scanSel doc "" 0 possible_body_selectors).2.1.length < 150) = true
  · rw [if_pos hc]
    cases hf : fallbackBody (scanSel doc "" 0 possible_body_selectors).1 with
    | some tb =>
      have hl := fallbackBody_long _ _ hf
      show tb ≠ ""
      intro he
      rw [he] at hl
      simp at hl
    | none =>
      by_cases hb : ((scanSel doc "" 0 possible_body_selectors).2.1 == "") = true
      · show (if _ then noBodySentinel else _) ≠ ""
        rw [if_pos hb]
        decide
      · show (if _ then noBodySentinel else _) ≠ ""
        rw [if_neg (by simp_all)]
        simpa using hb
  · rw [if_neg hc]
    show (scanSel doc "" 0 possible_body_selectors).2.1 ≠ ""
    intro he
    apply hc
    simp [he]

/-- A non-sentinel final body carries no whitespace run. -/
theorem extract_body_noRun (doc : Doc)
    (h : (extract_body doc).body ≠ noBodySentinel) :
    noRun (extract_body doc).body.data = true := by
  have hscan := scanSel_noRun possible_body_selectors doc "" 0 rfl
  unfold extract_body at h ⊢
  by_cases hc : ((scanSel doc "" 0 possible_body_selectors).2.1 == "" ||
      (scanSel doc "" 0 possible_body_selectors).2.1.length < 150) = true
  · rw [if_pos hc] at h ⊢
    cases hf : fallbackBody (scanSel doc "" 0 possible_body_selectors).1 with
    | some tb =>
      exact fallbackBody_noRun _ _ hf
    | none =>
      rw [hf] at h
      have h2 : (if ((scanSel doc "" 0 possible_body_selectors).2.1 == "") = true
          then noBodySentinel else (scanSel doc "" 0 possible_body_selectors).2.1) ≠
          noBodySentinel := h
      show noRun (if ((scanSel doc "" 0 possible_body_selectors).2.1 == "") = true
          then noBodySentinel else (scanSel doc "" 0 possible_body_selectors).2.1).data = true
      by_cases hb : ((scanSel doc "" 0 possible_body_selectors).2.1 == "") = true
      · rw [if_pos hb] at h2
        exact absurd rfl h2
      · rw [if_neg hb]
        exact hscan
  · rw [if_neg hc] at h ⊢
    exact hscan

/-- A body taken from the paragraph fallback is strictly longer than 100
characters. -/
theorem extract_body_fallback_long (doc : Doc)
    (h : (extract_body doc).usedFallback = true) :
    100 < (extract_body doc).body.length := by
  unfold extract_body at h ⊢
  by_cases hc : ((scanSel doc "" 0 possible_body_selectors).2.1 == "" ||
      (scanSel doc "" 0 possible_body_selectors).2.1.length < 150) = true
  · rw [if_pos hc] at h ⊢
    cases hf : fallbackBody (scanSel doc "" 0 possible_body_selectors).1 with
    | some tb =>
      exact fallbackBody_long _ _ hf
    | none =>
      rw [hf] at h
      have h2 : false = true := h
      cases h2
  · rw [if_neg hc] at h
    have h2 : false = true := h
    cases h2

/-- A broken scan leaves a final body strictly longer than 150 characters. -/
theorem extract_body_broke_long (doc : Doc)
    (h : (extract_body doc).brokeAt.isSome = true) :
    150 < (extract_body doc).body.length := by
  rw [extract_body_brokeAt] at h
  have h150 := scanSel_broke_long possible_body_selectors doc "" 0 h
  unfold extract_body
  have hcond : ((scanSel doc "" 0 possible_body_selectors).2.1 == "" ||
      (scanSel doc "" 0 possible_body_selectors).2.1.length < 150) = false := by
    have hne : ((scanSel doc "" 0 possible_body_selectors).2.1 == "") = false := by
      rw [beq_eq_false_iff_ne]
      intro he
      rw [he] at h150
      simp at h150
    simp [hne]
    omega
  rw [if_neg (by simp [hcond])]
  exact h150

/-- The final step of the source extraction never yields an empty string. -/
theorem sourceFinal_ne_empty (l : List Char) :
    (if (pyStripL (l.filter fun c => c != '-')).isEmpty = true then noSourceSentinel
     else String.mk (pyStripL (l.filter fun c => c != '-'))) ≠ "" := by
  by_cases hc : (pyStripL (l.filter fun c => c != '-')).isEmpty = true
  · rw [if_pos hc]
    decide
  · rw [if_neg hc]
    apply strMk_ne_empty
    intro hnil
    exact hc (by simp [hnil])

/-- The extracted source is never the empty string. -/
theorem extract_source_ne_empty (url : String) : extract_source url ≠ "" := by
  unfold extract_source
  cases hs : searchDomain url.data with
  | none => exact sourceFinal_ne_empty noSourceSentinel.data
  | some g => exact sourceFinal_ne_empty _

/-- The extracted title can be empty only when the raw title selected at
line 70 is a nonempty whitespace-only string. -/
theorem extract_title_empty_cond (doc : Doc) (h : extract_title doc = "") :
    ∃ r, titleStep1 doc = some r ∧ r ≠ "" ∧ pyStripS r = "" := by
  unfold extract_title at h
  cases ht : titleStep1 doc with
  | none =>
    rw [ht] at h
    exact absurd h (by decide)
  | some t =>
    rw [ht] at h
    have h2 : (if (t == "") = true then noTitleSentinel else pyStripS t) = "" := h
    by_cases hte : (t == "") = true
    · rw [if_pos hte] at h2
      exact absurd h2 (by decide)
    · rw [if_neg hte] at h2
      exact ⟨t, rfl, by simpa using hte, h2⟩

/-- Unfolding equation of the orchestrator on a fetched response. -/
theorem extract_info_ok_eq (url : String) (resp : Response)
    (parse : String → Except Unit Doc) :
    extract_info_from_url url (.ok resp) parse =
      if 400 ≤ resp.status && resp.status < 600 then (("", "", ""), Report.networkErr)
      else
        match parse (resolveEncoding resp url).1 with
        | .error _ => ((noTitleSentinel, noBodySentinel, noSourceSentinel), Report.parseWarn)
        | .ok doc =>
          ((extract_title doc, (extract_body doc).body, extract_source url), Report.okExtract) :=
  rfl

/-- C1 (counterexample): with a whitespace-only og:title content attribute
the title field of the returned triple is the empty string, not a sentinel,
so not every field is non-empty after a successful fetch. -/
theorem c1_counterexample :
    (extract_info_from_url urlC1 (.ok respC1) parseC1).1.1 = "" ∧
    (extract_info_from_url urlC1 (.ok respC1) parseC1).2 = Report.okExtract := by
  decide

/-- C1 (amended): after a successful fetch and parse, the body and source
fields of the triple are always non-empty (a sentinel replaces missing
content), but the title field can be empty in exactly one situation: when
the raw title selected at line 70 (og:title content, or the title element
string) is a nonempty whitespace-only string, `strip` turns it into the
empty string instead of the sentinel. -/
theorem c1_amended_nonempty_fields (url : String) (resp : Response)
    (parse : String → Except Unit Doc) (doc : Doc)
    (hok : fetchFailed (.ok resp) = false)
    (hp : parse (resolveEncoding resp url).1 = .ok doc) :
    (extract_info_from_url url (.ok resp) parse).1.2.1 ≠ "" ∧
    (extract_info_from_url url (.ok resp) parse).1.2.2 ≠ "" ∧
    ((extract_info_from_url url (.ok resp) parse).1.1 = "" →
      ∃ r, titleStep1 doc = some r ∧ r ≠ "" ∧ pyStripS r = "") := by
  have hok2 : (400 ≤ resp.status && resp.status < 600) = false := hok
  have hred : extract_info_from_url url (.ok resp) parse =
      ((extract_title doc, (extract_body doc).body, extract_source url), .okExtract) := by
    rw [extract_info_ok_eq, if_neg (by simp [hok2]), hp]
  rw [hred]
  exact ⟨extract_body_ne_empty doc, extract_source_ne_empty url,
    extract_title_empty_cond doc⟩

theorem c1_amended_nonempty_fields_witness :
    fetchFailed (.ok respC1) = false ∧
    ((extract_info_from_url urlC1 (.ok respC1) parseC1).1.2.1 ≠ "" ∧
     (extract_info_from_url urlC1 (.ok respC1) parseC1).1.2.2 ≠ "" ∧
     ((extract_info_from_url urlC1 (.ok respC1) parseC1).1.1 = "" →
       ∃ r, titleStep1 docC1 = some r ∧ r ≠ "" ∧ pyStripS r = "")) :=
  ⟨by decide, c1_amended_nonempty_fields urlC1 respC1 parseC1 docC1 (by decide) rfl⟩

/-- C2 (counterexample): a URL with host `news.example.co.kr` does not match
the domain pattern (the pattern allows only one label before the suffix
after an optional `www.`), so the source is the sentinel, not "news". -/
theorem c2_counterexample :
    extract_source "https://news.example.co.kr/article" = noSourceSentinel ∧
    extract_source "https://news.example.co.kr/article" ≠ "news" := by
  decide

/-- C2 (amended): the pattern matches a host consisting of exactly one
label followed by a recognized suffix, after an optional `www.` prefix; for
a `.co.kr` compound suffix the leftmost label of the matched domain is
returned, otherwise the second-to-last dot-separated part, hyphens
stripped, and the sentinel is returned when the pattern does not match
(as with the extra subdomain label of `news.example.co.kr`) or the result
is blank. -/
theorem c2_amended_source_algorithm :
    extract_source "https://news.example.co.kr/article" = noSourceSentinel ∧
    extract_source "https://www.example.com/x" = "example" ∧
    extract_source "https://news.co.kr/article" = "news" ∧
    extract_source "https://dt.co.kr/article/123" = "dt" ∧
    extract_source "https://my-site.com/a" = "mysite" ∧
    extract_source "https://----.com/a" = noSourceSentinel := by
  decide

/-- C3 (counterexample): when the last matching selector leaves a short
residual body and the paragraph fallback produces nothing, the short
residual is returned: a non-sentinel body below every length threshold and
not a paragraph-fallback candidate. -/
theorem c3_counterexample :
    (extract_body docC3).body = "short body text" ∧
    (extract_body docC3).body ≠ noBodySentinel ∧
    (extract_body docC3).body.length < 150 ∧
    (extract_body docC3).usedFallback = false := by
  decide

/-- C3 (amended): a non-sentinel body is always whitespace-normalized (no
run of two or more whitespace characters); a body accepted through the
paragraph fallback is strictly longer than 100 characters and a body that
broke the selector scan is strictly longer than 150, but the residual text
of the last matching selector may be returned at any length when no
candidate reaches a threshold. -/
theorem c3_amended_body_quality (doc : Doc) :
    ((extract_body doc).body ≠ noBodySentinel →
      noRun (extract_body doc).body.data = true) ∧
    ((extract_body doc).usedFallback = true →
      100 < (extract_body doc).body.length) ∧
    ((extract_body doc).brokeAt.isSome = true →
      150 < (extract_body doc).body.length) :=
  ⟨extract_body_noRun doc, extract_body_fallback_long doc,
    extract_body_broke_long doc⟩

theorem c3_amended_body_quality_witness :
    (extract_body docC3w).usedFallback = true ∧
    (extract_body docC3w).body ≠ noBodySentinel ∧
    noRun (extract_body docC3w).body.data = true ∧
    100 < (extract_body docC3w).body.length :=
  ⟨by decide, by decide, (c3_amended_body_quality docC3w).1 (by decide),
    (c3_amended_body_quality docC3w).2.1 (by decide)⟩

/-- C4 (counterexample): a selector yield of exactly 150 characters (at
least 150, as the claim reads the threshold) does not stop the scan — the
break requires strictly more than 150 — and the paragraph fallback does
run afterwards. -/
theorem c4_counterexample :
    firstGEIdx 0 (scanAll docC4 possible_body_selectors).2 = some 0 ∧
    (extract_body docC4).brokeAt = none ∧
    (extract_body docC4).fallbackRan = true := by
  decide

/-- C4 (amended): the scan breaks exactly at the first selector whose
cleaned normalized text is strictly longer than 150 characters (in the
mutation-threaded document), and whenever it breaks the paragraph-fallback
branch is never entered. -/
theorem c4_amended_shortcircuit (doc : Doc) :
    (extract_body doc).brokeAt = firstLongIdx 0 (scanAll doc possible_body_selectors).2 ∧
    ((extract_body doc).brokeAt.isSome = true →
      (extract_body doc).fallbackRan = false) := by
  refine ⟨?_, extract_body_broke_noFallback doc⟩
  rw [extract_body_brokeAt]
  exact scanSel_brokeAt_eq_firstLong possible_body_selectors doc "" 0

theorem c4_amended_shortcircuit_witness :
    (extract_body docC4w).brokeAt = firstLongIdx 0 (scanAll docC4w possible_body_selectors).2 ∧
    (extract_body docC4w).brokeAt.isSome = true ∧
    (extract_body docC4w).fallbackRan = false :=
  ⟨(c4_amended_shortcircuit docC4w).1, by decide,
    (c4_amended_shortcircuit docC4w).2 (by decide)⟩

/-- C5: every fetch failure — a network exception from `requests.get` or a
4xx/5xx status raised by `raise_for_status` — makes `extract_info_from_url`
return three empty strings (not the sentinels) and report the network-error
condition, which is distinct from the parsing condition. -/
theorem c5_fetch_failure_empty_triple (url : String)
    (parse : String → Except Unit Doc) (o : FetchOutcome)
    (h : fetchFailed o = true) :
    extract_info_from_url url o parse = (("", "", ""), .networkErr) ∧
    Report.networkErr ≠ Report.parseWarn := by
  refine ⟨?_, by decide⟩
  cases o with
  | fail e => rfl
  | ok resp =>
    have h2 : (400 ≤ resp.status && resp.status < 600) = true := h
    rw [extract_info_ok_eq, if_pos h2]

theorem c5_fetch_failure_empty_triple_witness :
    fetchFailed (.ok respC5) = true ∧
    extract_info_from_url "https://example.com/missing" (.ok respC5)
      (fun _ => .ok []) = (("", "", ""), .networkErr) :=
  ⟨by decide,
    (c5_fetch_failure_empty_triple "https://example.com/missing"
      (fun _ => .ok []) (.ok respC5) (by decide)).1⟩

/-- C6: after a successful fetch, a failure of the parsing/extraction phase
(the `except Exception` catch-all, modelled by the parser oracle returning
an error) never propagates: the function returns the three sentinel values
with a warning report. -/
theorem c6_parse_failure_sentinels (url : String) (resp : Response)
    (parse : String → Except Unit Doc)
    (hok : fetchFailed (.ok resp) = false)
    (hp : parse (resolveEncoding resp url).1 = .error ()) :
    extract_info_from_url url (.ok resp) parse =
      ((noTitleSentinel, noBodySentinel, noSourceSentinel), .parseWarn) := by
  have hok2 : (400 ≤ resp.status && resp.status < 600) = false := hok
  rw [extract_info_ok_eq, if_neg (by simp [hok2]), hp]

theorem c6_parse_failure_sentinels_witness :
    extract_info_from_url "https://example.com/a" (.ok ⟨200, [], "text/html", "x"⟩)
      (fun _ => .error ()) =
      ((noTitleSentinel, noBodySentinel, noSourceSentinel), .parseWarn) :=
  c6_parse_failure_sentinels "https://example.com/a" ⟨200, [], "text/html", "x"⟩
    (fun _ => .error ()) (by decide) rfl

/-- C7 (counterexample): the override is keyed on `'dt.co.kr' in url`, a
substring test over the whole URL, not on the URL's domain: a URL whose
host is `evil.com` but whose path mentions `dt.co.kr` triggers the euc-kr
re-decode even though the spec condition (charset or domain) is false. -/
theorem c7_counterexample :
    specLegacyCond respC7 urlC7 = false ∧
    overrideCond respC7 urlC7 = true ∧
    (resolveEncoding respC7 urlC7).2 = EncUse.euckrOverride ∧
    (resolveEncoding respC7 urlC7).1 ≠ respC7.text := by
  decide

/-- C7 (amended): the legacy re-decode is applied exactly when
`charset=euc-kr` occurs in the lowercased Content-Type header or the
substring `dt.co.kr` occurs anywhere in the URL; in that case the text used
for parsing is the euc-kr replacement decode of the raw bytes, otherwise it
is the baseline decode of the response. -/
theorem c7_amended_override_condition (resp : Response) (url : String) :
    resolveEncoding resp url =
      if overrideCond resp url then (eucKrReplaceText resp.content, EncUse.euckrOverride)
      else (resp.text, EncUse.baselineDecl) := by
  unfold resolveEncoding eucKrReplaceText
  by_cases hc : overrideCond resp url = true
  · obtain ⟨cs, hcs⟩ := eucKrDecode_replace_ok resp.content
    rw [if_pos hc, if_pos hc, hcs]
  · rw [if_neg hc, if_neg hc]

/-- C8: the euc-kr replacement decode is total — every byte list, including
ones invalid in euc-kr, decodes successfully (invalid sequences become the
replacement character), so the decode step never aborts the extraction. -/
theorem c8_replace_decode_total (bs : List Nat) :
    ∃ cs, eucKrDecode DecodeMode.replace bs = Except.ok cs :=
  eucKrDecode_replace_ok bs

/-- C9: the body-text whitespace normalization (collapse each whitespace
run to one space, then strip both ends) is idempotent. -/
theorem c9_normalize_idempotent (s : String) :
    normalizeWs (normalizeWs s) = normalizeWs s := by
  unfold normalizeWs
  rw [strData_mk, normalizeL_fix]

/-- C10: the `except UnicodeDecodeError` arm guarding the euc-kr re-decode
is unreachable: the encoding resolution always ends in the override branch
or the baseline branch, never in the keep-after-failure branch. -/
theorem c10_decode_failure_branch_unreachable (resp : Response) (url : String) :
    (resolveEncoding resp url).2 = EncUse.euckrOverride ∨
    (resolveEncoding resp url).2 = EncUse.baselineDecl := by
  unfold resolveEncoding
  by_cases hc : overrideCond resp url = true
  · obtain ⟨cs, hcs⟩ := eucKrDecode_replace_ok resp.content
    rw [if_pos hc, hcs]
    exact Or.inl rfl
  · rw [if_neg hc]
    exact Or.inr rfl
